import Mathlib

/-!
Verification of `cosmos_transfer1/diffusion/config/training/experiment/ctrl_7b_tp_sample_av_mv.py`.

The module builds lazy training-job configuration trees (`make_ctrlnet_config`),
derives small debug variants by deep copy plus targeted field edits
(`make_small_config`), and registers the resulting trees under generated names.

Two embeddings are developed here:
* a pure value-level model (`Value`, `make_ctrlnet_config`, `make_small_config`)
  of the configuration trees the module produces, and
* a heap model (`Heap`, `deepcopyV`, `make_small_configH`) making object identity and
  in-place mutation explicit, used to verify the deep-copy non-aliasing
  guarantee of `make_small_config`.
-/

/-- A Python value as used by this module: strings, ints, bools, float
literals (kept opaque: no claim is about float arithmetic), `None`, lists,
string-keyed dicts, the one int-keyed int dict (`caption_view_idx_map`), and
deferred-construction (`LazyCall`) nodes with a target name and keyword
arguments. -/
inductive Value where
  | vstr (s : String)
  | vint (n : Int)
  | vbool (b : Bool)
  | vfloat (lit : String)
  | vnone
  | vlist (xs : List Value)
  | vdict (kvs : List (String × Value))
  | vimap (kvs : List (Int × Int))
  | vlazy (target : String) (args : List (String × Value))

/-- Nested dict read `d[k1][k2]...`; `none` where Python would raise
`KeyError`/`TypeError`. A `LazyCall` node is itself a dict-like
configuration object, so indexing reaches into its keyword arguments. -/
def getPath : Value → List String → Option Value
  | v, [] => some v
  | .vdict kvs, k :: rest => match List.lookup k kvs with
      | some child => getPath child rest
      | none => none
  | .vlazy _ args, k :: rest => match List.lookup k args with
      | some child => getPath child rest
      | none => none
  | _, _ :: _ => none

/-- Dict assignment `d[k] = v`: update in place (keeping the key's position,
as Python dicts do) or append a new key at the end. -/
def setKey : List (String × Value) → String → Value → List (String × Value)
  | [], k, v => [(k, v)]
  | (k', v') :: rest, k, v =>
      if k' = k then (k', v) :: rest else (k', v') :: setKey rest k v

/-- Nested dict write `d[k1][k2]... = v`; `none` where Python would raise.
A `LazyCall` node is dict-like, so writes reach into its keyword
arguments. -/
def setPath : Value → List String → Value → Option Value
  | _, [], _ => none
  | .vdict kvs, [k], v => some (.vdict (setKey kvs k v))
  | .vdict kvs, k :: k2 :: rest, v => match List.lookup k kvs with
      | some child =>
          (setPath child (k2 :: rest) v).map fun c => .vdict (setKey kvs k c)
      | none => none
  | .vlazy t args, [k], v => some (.vlazy t (setKey args k v))
  | .vlazy t args, k :: k2 :: rest, v => match List.lookup k args with
      | some child =>
          (setPath child (k2 :: rest) v).map fun c => .vlazy t (setKey args k c)
      | none => none
  | _, _ :: _, _ => none

/-- Whether the first list leads the second (kernel-computable prefix
test). -/
def beginsWith : List Char → List Char → Bool
  | [], _ => true
  | _ :: _, [] => false
  | c :: cs, d :: ds => (c = d) && beginsWith cs ds

/-- Python `str.startsWith` (kernel-computable). -/
def pyStartsWith (s pre : String) : Bool := beginsWith pre.data s.data

/-- Python `str.endsWith` (kernel-computable). -/
def pyEndsWith (s post : String) : Bool :=
  beginsWith post.data.reverse s.data.reverse

/-- Replace all non-overlapping occurrences of `pat` (non-empty in every
use here) left to right, with fuel bounded by the string length. -/
def replaceCore : Nat → List Char → List Char → List Char → List Char
  | 0, s, _, _ => s
  | fuel + 1, s, pat, rep =>
    if beginsWith pat s ∧ pat ≠ [] then
      rep ++ replaceCore fuel (s.drop pat.length) pat rep
    else
      match s with
      | [] => []
      | c :: cs => c :: replaceCore fuel cs pat rep

/-- Python `str.replace` (kernel-computable). -/
def pyReplace (s pat rep : String) : String :=
  String.mk (replaceCore (s.data.length + 1) s.data pat.data rep.data)

/-- One step of `os.path.join` (posixpath semantics). -/
def pyJoin1 (path p : String) : String :=
  if pyStartsWith p "/" then p
  else if path = "" || pyEndsWith path "/" then path ++ p
  else path ++ "/" ++ p

/-- Python `os.path.join(root, parts...)` (posixpath semantics). -/
def pyJoin (root : String) (parts : List String) : String :=
  parts.foldl pyJoin1 root

/-- Python `os.path.split`: split at the last slash; the head keeps its trailing
slash, the tail is the part after the last slash. -/
def pySplit (p : String) : String × String :=
  let rev := p.data.reverse
  (String.mk (rev.dropWhile (fun c => c ≠ '/')).reverse,
   String.mk (rev.takeWhile (fun c => c ≠ '/')).reverse)

/-- Python `os.path.dirname` (posixpath): the head of the split, stripped of
trailing slashes unless it consists only of slashes. -/
def dirname (p : String) : String :=
  let head := (pySplit p).1
  if head = "" then ""
  else if head.data.all (fun c => c = '/') then head
  else String.mk (head.data.reverse.dropWhile (fun c => c = '/')).reverse

/-- Python `os.path.basename` (posixpath). -/
def basename (p : String) : String := (pySplit p).2

def num_blocks : Nat := 28

def num_control_blocks : Int := 3

def ckpt_root : String := "checkpoints/"

def data_root : String := "datasets/waymo_transfer/"

/-- Modelled from the spec: the base-model checkpoint path constant
`SV2MV_t2v_BASE_CHECKPOINT_AV_SAMPLE_PATH_dbg` is imported from
`cosmos_transfer1.checkpoints`, a module whose source is not available here.
The spec describes such entries only as checkpoint path strings whose base
filename is what the derived load paths use, so a representative bare
filename stands in for it. -/
def SV2MV_t2v_BASE_CHECKPOINT_AV_SAMPLE_PATH_dbg : String :=
  "sv2mv_t2v_base_av_sample_dbg.pt"

/-- Modelled from the spec: the checkpoint-table entry for the short hint
key "hdmap"; the constant is imported from `cosmos_transfer1.checkpoints`,
not available here, and is described by the spec only as "a base checkpoint
path string". -/
def SV2MV_t2v_HDMAP2WORLD_CONTROLNET_7B_CHECKPOINT_PATH_dbg : String :=
  "sv2mv_t2v_hdmap2world_controlnet_7b_dbg.pt"

/-- Modelled from the spec: the checkpoint-table entry for the short hint
key "lidar"; the constant is imported from `cosmos_transfer1.checkpoints`,
not available here, and is described by the spec only as "a base checkpoint
path string". -/
def SV2MV_t2v_LIDAR2WORLD_CONTROLNET_7B_CHECKPOINT_PATH_dbg : String :=
  "sv2mv_t2v_lidar2world_controlnet_7b_dbg.pt"

def mv_model_names : List (String × String) :=
  [("hdmap", SV2MV_t2v_HDMAP2WORLD_CONTROLNET_7B_CHECKPOINT_PATH_dbg),
   ("lidar", SV2MV_t2v_LIDAR2WORLD_CONTROLNET_7B_CHECKPOINT_PATH_dbg)]

/-- The `job_name` string computed by the if/else ladder at the top of
`make_ctrlnet_config`. -/
def ctrl_job_name (hint_key : String) (ncb : Int) (pretrain_model_path : String)
    (t2v : Bool) (num_frames : Int) : String :=
  if pretrain_model_path = "" then
    if t2v then
      "CTRL_7Bv1pt3_t2v_sv2mv_" ++ toString num_frames ++ "frames_" ++ hint_key
        ++ "_block" ++ toString ncb ++ "_pretrain"
    else
      "CTRL_7Bv1pt3_lvg_sv2mv_" ++ toString num_frames ++ "frames_" ++ hint_key
        ++ "_block" ++ toString ncb ++ "_pretrain"
  else
    if t2v then
      "CTRL_7Bv1pt3_t2v_sv2mv_" ++ toString num_frames ++ "frames_" ++ hint_key
        ++ "_block" ++ toString ncb ++ "_posttrain"
    else
      "CTRL_7Bv1pt3_lvg_sv2mv_" ++ toString num_frames ++ "frames_" ++ hint_key
        ++ "_block" ++ toString ncb ++ "_posttrain"

/-- The `job_project` string computed alongside `job_name` (both `t2v`
branches assign the same project). -/
def ctrl_job_project (pretrain_model_path : String) (t2v : Bool) : String :=
  if pretrain_model_path = "" then
    if t2v then "cosmos_transfer1_pretrain" else "cosmos_transfer1_pretrain"
  else
    if t2v then "cosmos_transfer1_posttrain" else "cosmos_transfer1_posttrain"

/-- The configuration tree built by `make_ctrlnet_config`, field for field.
`LazyCall` wrappers become `vlazy` nodes; the shared local
`example_multiview_dataset_waymo` is the shared `let`-bound value. -/
def make_ctrlnet_config (hint_key : String) (ncb : Int)
    (pretrain_model_path : String) (t2v : Bool) (num_frames : Int) : Value :=
  let job_name := ctrl_job_name hint_key ncb pretrain_model_path t2v num_frames
  let job_project := ctrl_job_project pretrain_model_path t2v
  let example_multiview_dataset_waymo : Value :=
    .vlazy "AVTransferDataset" [
      ("dataset_dir", .vstr data_root),
      ("num_frames", .vint num_frames),
      ("hint_key", .vstr hint_key),
      ("resolution", .vstr "720"),
      ("view_keys", .vlist [.vstr "pinhole_front", .vstr "pinhole_front_left",
        .vstr "pinhole_front_right", .vstr "pinhole_side_left",
        .vstr "pinhole_side_right"]),
      ("caption_view_idx_map", .vimap [(0, 0), (1, 1), (2, 2), (3, 4), (4, 5)]),
      ("sample_n_views", .vint 3),
      ("load_mv_emb", .vbool false),
      ("is_train", .vbool true)]
  .vdict [
    ("defaults", .vlist [
      .vdict [("override /net", .vstr "faditv2_7b")],
      .vdict [("override /net_ctrl", .vstr "faditv2_sv2mv")],
      .vdict [("override /conditioner",
        .vstr "view_cond_ctrlnet_add_fps_image_size_padding_mask")],
      .vdict [("override /tokenizer",
        .vstr "cosmos_diffusion_tokenizer_res720_comp8x8x8_t121_ver092624")],
      .vdict [("override /hint_key", .vstr hint_key)],
      .vdict [("override /callbacks", .vstr "basic")],
      .vdict [("override /checkpoint", .vstr "local")],
      .vdict [("override /ckpt_klass", .vstr "fast_tp")],
      .vstr "_self_"]),
    ("job", .vdict [
      ("group", .vstr "CTRL_7Bv1_sampleAV"),
      ("project", .vstr job_project),
      ("name", .vstr job_name)]),
    ("optimizer", .vdict [
      ("lr", .vfloat "2**(-14.3)"),
      ("weight_decay", .vfloat "0.1"),
      ("betas", .vlist [.vfloat "0.9", .vfloat "0.99"]),
      ("eps", .vfloat "1e-10")]),
    ("checkpoint", .vdict [
      ("load_path", .vstr pretrain_model_path),
      ("broadcast_via_filesystem", .vbool true),
      ("save_iter", .vint 1000),
      ("load_training_state", .vbool false),
      ("strict_resume", .vbool false),
      ("keys_not_to_resume", .vlist [])]),
    ("trainer", .vdict [
      ("distributed_parallelism", .vstr "ddp"),
      ("logging_iter", .vint 200),
      ("max_iter", .vint 999999999),
      ("callbacks", .vdict [
        ("iter_speed", .vdict [("hit_thres", .vint 5)])]),
      ("timestamp_seed", .vbool true)]),
    ("model_parallel", .vdict [
      ("tensor_model_parallel_size", .vint 8),
      ("sequence_parallel", .vbool true)]),
    ("model", .vdict [
      ("fsdp_enabled", .vbool false),
      ("n_views", .vint 3),
      ("context_parallel_size", .vint 1),
      ("loss_reduce", .vstr "mean"),
      ("latent_shape", .vlist [.vint 16, .vint ((num_frames - 1).fdiv 8 + 1),
        .vint 88, .vint 160]),
      ("base_load_from", .vdict [
        ("load_path", .vstr (pyJoin ckpt_root
          [dirname SV2MV_t2v_BASE_CHECKPOINT_AV_SAMPLE_PATH_dbg,
           "checkpoints_tp", "model_model_mp_*.pt"]))]),
      ("finetune_base_model", .vbool false),
      ("hint_mask", .vlist [.vbool true]),
      ("hint_dropout_rate", .vfloat "0.15"),
      ("conditioner", .vdict [
        ("video_cond_bool", .vdict [
          ("condition_location", .vstr "first_random_n"),
          ("cfg_unconditional_type",
            .vstr "zero_condition_region_condition_mask"),
          ("apply_corruption_to_condition_region", .vstr "noise_with_sigma"),
          ("condition_on_augment_sigma", .vbool false),
          ("dropout_rate", .vfloat "0.0"),
          ("first_random_n_num_condition_t_max", .vint (if t2v then 0 else 2)),
          ("normalize_condition_latent", .vbool false),
          ("augment_sigma_sample_p_mean", .vfloat "-3.0"),
          ("augment_sigma_sample_p_std", .vfloat "2.0"),
          ("augment_sigma_sample_multiplier", .vfloat "1.0")])]),
      ("net", .vlazy "VideoExtendGeneralDIT" [
        ("in_channels", .vint 17),
        ("n_views", .vint 3),
        ("n_views_emb", .vint 7),
        ("view_condition_dim", .vint 6),
        ("add_repeat_frame_embedding", .vbool true),
        ("extra_per_block_abs_pos_emb", .vbool true),
        ("pos_emb_learnable", .vbool true),
        ("extra_per_block_abs_pos_emb_type", .vstr "learnable"),
        ("num_blocks", .vint (num_blocks : Int))]),
      ("adjust_video_noise", .vbool true),
      ("net_ctrl", .vdict [
        ("in_channels", .vint 16),
        ("hint_channels", .vint 16),
        ("num_blocks", .vint (num_blocks : Int)),
        ("n_views", .vint 3),
        ("n_views_emb", .vint 7),
        ("view_condition_dim", .vint 6),
        ("add_repeat_frame_embedding", .vbool true),
        ("is_extend_model", .vbool true),
        ("layer_mask", .vlist ((List.range num_blocks).map fun i : Nat =>
          .vbool (decide (ncb ≤ (i : Int))))),
        ("extra_per_block_abs_pos_emb", .vbool true),
        ("pos_emb_learnable", .vbool true),
        ("extra_per_block_abs_pos_emb_type", .vstr "learnable")]),
      ("tokenizer", .vdict [("pixel_chunk_duration", .vint num_frames)])]),
    ("model_obj", .vlazy "MultiVideoDiffusionModelWithCtrl" []),
    ("dataloader_train", .vlazy "DataLoader" [
      ("dataset", example_multiview_dataset_waymo),
      ("sampler", .vlazy "get_sampler"
        [("dataset", example_multiview_dataset_waymo)]),
      ("batch_size", .vint 1),
      ("drop_last", .vbool true),
      ("pin_memory", .vbool true),
      ("num_workers", .vint 8)]),
    ("dataloader_val", .vlazy "DataLoader" [
      ("dataset", example_multiview_dataset_waymo),
      ("sampler", .vlazy "get_sampler"
        [("dataset", example_multiview_dataset_waymo)]),
      ("batch_size", .vint 1),
      ("drop_last", .vbool true),
      ("pin_memory", .vbool true),
      ("num_workers", .vint 8)])]

/-- Value-level `make_small_config`: the same sequence of nested-field
assignments the source performs after its deep copy, as functional updates.
`none` where Python would raise; the job name is always a string in the
trees this module builds, so matching on `vstr` is exact here. -/
def make_small_config (base_config : Value) (net_ctrl : Bool) : Option Value :=
  (setPath base_config ["job", "group"] (.vstr "debug")).bind fun c1 =>
  (match getPath c1 ["job", "name"] with
    | some (.vstr n) => some n
    | _ => none).bind fun n =>
  (setPath c1 ["job", "name"] (.vstr (n ++ "_SMALL"))).bind fun c2 =>
  let num_blocks_small : Nat := 2
  (setPath c2 ["model", "net", "num_blocks"]
    (.vint (num_blocks_small : Int))).bind fun c3 =>
  (if net_ctrl then
    (setPath c3 ["model", "net_ctrl", "num_blocks"]
      (.vint (num_blocks_small : Int))).bind fun c4 =>
    setPath c4 ["model", "net_ctrl", "layer_mask"]
      (.vlist ((List.range num_blocks_small).map fun i =>
        .vbool (decide (num_blocks_small / 2 ≤ i))))
  else some c3).bind fun c5 =>
  (setPath c5 ["model_parallel", "tensor_model_parallel_size"]
    (.vint 1)).bind fun c6 =>
  (setPath c6 ["model_parallel", "sequence_parallel"] (.vbool false)).bind
    fun c7 =>
  (setPath c7 ["checkpoint", "load_path"] (.vstr "")).bind fun c8 =>
  setPath c8 ["model", "base_load_from", "load_path"] (.vstr "")

def all_hint_key : List String :=
  ["control_input_hdmap", "control_input_lidar"]

/-- The `config["job"]["name"]` read used by the registration calls (always
a string in the trees this module builds). -/
def jobNameOf (cfg : Value) : String :=
  match getPath cfg ["job", "name"] with
  | some (.vstr s) => s
  | _ => ""

/-- The TP checkpoint path the loop computes for one hint key:
`os.path.join(ckpt_root, dirname(entry), "checkpoints_tp", basename(entry))`
for the table entry of the short hint key. Both keys of `all_hint_key` are
present in `mv_model_names`, so the lookup fallback is never taken. -/
def tp_ckpt_path (key : String) : String :=
  let hint_key_short := pyReplace key "control_input_" ""
  let pretrain_ckpt_path := (List.lookup hint_key_short mv_model_names).getD ""
  pyJoin ckpt_root
    [dirname pretrain_ckpt_path, "checkpoints_tp", basename pretrain_ckpt_path]

/-- One `cs.store(...)` call of the registration loop. -/
structure StoreCall where
  group : String
  package : String
  name : String
  node : Value

def nf_list : List Int := [57, 121]

/-- The module-level generation loop as the list of `cs.store` calls it
makes, in order. `make_small_config` cannot fail on these trees, so the
`getD` fallback is never taken. -/
def registrations : List StoreCall :=
  all_hint_key.flatMap fun key =>
    nf_list.flatMap fun num_frames =>
      let t2v_config :=
        make_ctrlnet_config key num_control_blocks "" true num_frames
      let debug_config := (make_small_config t2v_config true).getD t2v_config
      let config := make_ctrlnet_config key num_control_blocks
        (tp_ckpt_path key) true num_frames
      [⟨"experiment", "_global_", jobNameOf t2v_config, t2v_config⟩,
       ⟨"experiment", "_global_", jobNameOf debug_config, debug_config⟩,
       ⟨"experiment", "_global_", jobNameOf config, config⟩]

/-! ## Heap model

Python objects live on a heap and `make_small_config` mutates its deep copy
in place. The heap model makes addresses, `copy.deepcopy` and in-place
nested assignment explicit, to verify the non-aliasing guarantee. -/

/-- An immediate (non-object) Python value. -/
inductive Prim where
  | ps (s : String)
  | pi (n : Int)
  | pb (b : Bool)
  | pf (lit : String)
  | pnone
deriving DecidableEq

/-- A Python variable/field content: an immediate value or a reference to a
heap object. -/
inductive HVal where
  | prim (p : Prim)
  | ref (a : Nat)
deriving DecidableEq

/-- A heap object: a dict, a list, or a dict-like `LazyCall` configuration
node. -/
inductive HObj where
  | hdict (fields : List (String × HVal))
  | hlist (items : List HVal)
  | hlazy (target : String) (args : List (String × HVal))
deriving DecidableEq

/-- A heap: an association list of allocated objects (first match wins, so
prepending acts as in-place update) and the next fresh address. -/
structure Heap where
  mem : List (Nat × HObj)
  next : Nat
deriving DecidableEq

def Heap.find (h : Heap) (a : Nat) : Option HObj := List.lookup a h.mem

/-- In-place overwrite of the object at address `a`. -/
def Heap.write (h : Heap) (a : Nat) (o : HObj) : Heap :=
  ⟨(a, o) :: h.mem, h.next⟩

/-- Allocate a new object at the next fresh address. -/
def Heap.alloc (h : Heap) (o : HObj) : Heap × Nat :=
  (⟨(h.next, o) :: h.mem, h.next + 1⟩, h.next)

def HVal.refs : HVal → List Nat
  | .prim _ => []
  | .ref a => [a]

def refsOfFields (l : List (String × HVal)) : List Nat :=
  l.flatMap fun p => p.2.refs

def HObj.refs : HObj → List Nat
  | .hdict fs => refsOfFields fs
  | .hlazy _ fs => refsOfFields fs
  | .hlist items => items.flatMap HVal.refs

/-- Every allocated address and every reference stored in the heap lies
below `next`. -/
def heapClosedBelow (h : Heap) : Bool :=
  h.mem.all fun p =>
    decide (p.1 < h.next) && (p.2.refs.all fun r => decide (r < h.next))

mutual

/-- Model of `copy.deepcopy` of a value, with a recursion-depth fuel; `none` when the
fuel runs out or a reference dangles. Every contained object is re-allocated
at a fresh address. -/
def deepcopyV : Nat → Heap → HVal → Option (HVal × Heap)
  | _, h, .prim p => some (.prim p, h)
  | 0, _, .ref _ => none
  | fuel + 1, h, .ref a =>
    match h.find a with
    | none => none
    | some (.hdict fs) =>
      match deepcopyFields fuel h fs with
      | none => none
      | some (fs', h') =>
        let (h2, b) := h'.alloc (.hdict fs')
        some (.ref b, h2)
    | some (.hlazy t fs) =>
      match deepcopyFields fuel h fs with
      | none => none
      | some (fs', h') =>
        let (h2, b) := h'.alloc (.hlazy t fs')
        some (.ref b, h2)
    | some (.hlist items) =>
      match deepcopyItems fuel h items with
      | none => none
      | some (items', h') =>
        let (h2, b) := h'.alloc (.hlist items')
        some (.ref b, h2)
termination_by structural fuel _ _ => fuel

def deepcopyFields : Nat → Heap → List (String × HVal) →
    Option (List (String × HVal) × Heap)
  | _, h, [] => some ([], h)
  | 0, _, _ :: _ => none
  | fuel + 1, h, (k, v) :: rest =>
    match deepcopyV fuel h v with
    | none => none
    | some (v', h') =>
      match deepcopyFields fuel h' rest with
      | none => none
      | some (rest', h'') => some ((k, v') :: rest', h'')
termination_by structural fuel _ _ => fuel

def deepcopyItems : Nat → Heap → List HVal → Option (List HVal × Heap)
  | _, h, [] => some ([], h)
  | 0, _, _ :: _ => none
  | fuel + 1, h, v :: rest =>
    match deepcopyV fuel h v with
    | none => none
    | some (v', h') =>
      match deepcopyItems fuel h' rest with
      | none => none
      | some (rest', h'') => some ((v' :: rest'), h'')
termination_by structural fuel _ _ => fuel

end

/-- The pure tree read off a heap value: the structural content an observer
sees, independent of addresses. -/
inductive RTree where
  | rprim (p : Prim)
  | rdict (fields : List (String × RTree))
  | rlist (items : List RTree)
  | rlazy (target : String) (args : List (String × RTree))

mutual

/-- Read the structural content of a heap value, with recursion-depth fuel;
`none` when the fuel runs out or a reference dangles. -/
def readV : Nat → Heap → HVal → Option RTree
  | _, _, .prim p => some (.rprim p)
  | 0, _, .ref _ => none
  | fuel + 1, h, .ref a =>
    match h.find a with
    | none => none
    | some (.hdict fs) =>
      match readFields fuel h fs with
      | none => none
      | some fs' => some (.rdict fs')
    | some (.hlazy t fs) =>
      match readFields fuel h fs with
      | none => none
      | some fs' => some (.rlazy t fs')
    | some (.hlist items) =>
      match readItems fuel h items with
      | none => none
      | some items' => some (.rlist items')
termination_by structural fuel _ _ => fuel

def readFields : Nat → Heap → List (String × HVal) →
    Option (List (String × RTree))
  | _, _, [] => some []
  | 0, _, _ :: _ => none
  | fuel + 1, h, (k, v) :: rest =>
    match readV fuel h v with
    | none => none
    | some t =>
      match readFields fuel h rest with
      | none => none
      | some rest' => some ((k, t) :: rest')
termination_by structural fuel _ _ => fuel

def readItems : Nat → Heap → List HVal → Option (List RTree)
  | _, _, [] => some []
  | 0, _, _ :: _ => none
  | fuel + 1, h, v :: rest =>
    match readV fuel h v with
    | none => none
    | some t =>
      match readItems fuel h rest with
      | none => none
      | some rest' => some (t :: rest')
termination_by structural fuel _ _ => fuel

end

/-- Address `x` is reachable from address `a` by following stored
references. -/
inductive Reaches (h : Heap) : Nat → Nat → Prop where
  | refl (a : Nat) : Reaches h a a
  | step {a b c : Nat} {o : HObj} (hfind : h.find a = some o)
      (hmem : b ∈ o.refs) (htail : Reaches h b c) : Reaches h a c

/-- The keyword/field mapping of a dict-like heap object. -/
def objFields : HObj → Option (List (String × HVal))
  | .hdict fs => some fs
  | .hlazy _ fs => some fs
  | .hlist _ => none

/-- Dict assignment on heap fields; same semantics as `setKey`. -/
def setKeyH : List (String × HVal) → String → HVal → List (String × HVal)
  | [], k, v => [(k, v)]
  | (k', v') :: rest, k, v =>
      if k' = k then (k', v) :: rest else (k', v') :: setKeyH rest k v

/-- Dict assignment on a dict-like heap object. -/
def setObjKey : HObj → String → HVal → Option HObj
  | .hdict fs, k, v => some (.hdict (setKeyH fs k v))
  | .hlazy t fs, k, v => some (.hlazy t (setKeyH fs k v))
  | .hlist _, _, _ => none

/-- Nested read `h[a][k1][k2]...` on the heap. -/
def getPathH (h : Heap) : Nat → List String → Option HVal
  | _, [] => none
  | a, k :: rest =>
    match h.find a with
    | none => none
    | some o =>
      match objFields o with
      | none => none
      | some fs =>
        match List.lookup k fs with
        | none => none
        | some v =>
          match rest with
          | [] => some v
          | _ :: _ =>
            match v with
            | .ref b => getPathH h b rest
            | .prim _ => none

/-- Nested in-place write `h[a][k1][k2]... = v`: navigates to the dict-like
object holding the final key and overwrites that one object. -/
def setPathH (h : Heap) : Nat → List String → HVal → Option Heap
  | _, [], _ => none
  | a, [k], v =>
    match h.find a with
    | none => none
    | some o =>
      match setObjKey o k v with
      | none => none
      | some o' => some (h.write a o')
  | a, k :: k2 :: rest, v =>
    match h.find a with
    | none => none
    | some o =>
      match objFields o with
      | none => none
      | some fs =>
        match List.lookup k fs with
        | some (.ref b) => setPathH h b (k2 :: rest) v
        | _ => none

/-- Heap-level `make_small_config`: `copy.deepcopy` of the tree rooted at
`a`, then the source's sequence of in-place nested assignments on the copy.
Returns the copy's root address and the final heap. -/
def make_small_configH (fuel : Nat) (h : Heap) (a : Nat) (net_ctrl : Bool) :
    Option (Nat × Heap) :=
  match deepcopyV fuel h (.ref a) with
  | some (.ref a', h1) =>
    (setPathH h1 a' ["job", "group"] (.prim (.ps "debug"))).bind fun h2 =>
    (match getPathH h2 a' ["job", "name"] with
      | some (.prim (.ps n)) => some n
      | _ => none).bind fun n =>
    (setPathH h2 a' ["job", "name"] (.prim (.ps (n ++ "_SMALL")))).bind
      fun h3 =>
    let num_blocks_small : Nat := 2
    (setPathH h3 a' ["model", "net", "num_blocks"]
      (.prim (.pi (num_blocks_small : Int)))).bind fun h4 =>
    (if net_ctrl then
      (setPathH h4 a' ["model", "net_ctrl", "num_blocks"]
        (.prim (.pi (num_blocks_small : Int)))).bind fun h5 =>
      let al := h5.alloc (.hlist ((List.range num_blocks_small).map fun i =>
        .prim (.pb (decide (num_blocks_small / 2 ≤ i)))))
      setPathH al.1 a' ["model", "net_ctrl", "layer_mask"] (.ref al.2)
    else some h4).bind fun h7 =>
    (setPathH h7 a' ["model_parallel", "tensor_model_parallel_size"]
      (.prim (.pi 1))).bind fun h8 =>
    (setPathH h8 a' ["model_parallel", "sequence_parallel"]
      (.prim (.pb false))).bind fun h9 =>
    (setPathH h9 a' ["checkpoint", "load_path"] (.prim (.ps ""))).bind
      fun h10 =>
    (setPathH h10 a' ["model", "base_load_from", "load_path"]
      (.prim (.ps ""))).map fun h11 => (a', h11)
  | _ => none

/-- A small concrete configuration heap exercising every path that
`make_small_configH` touches: root dict at address 0 with nested `job`,
`model` (with `net`, `net_ctrl`, `base_load_from`), `model_parallel` and
`checkpoint` objects, and a 28-entry layer-mask list. -/
def demoHeap : Heap :=
  ⟨[(0, .hdict [("job", .ref 1), ("model", .ref 2),
      ("model_parallel", .ref 3), ("checkpoint", .ref 4)]),
    (1, .hdict [("group", .prim (.ps "CTRL_7Bv1_sampleAV")),
      ("name", .prim (.ps "demo_experiment"))]),
    (2, .hdict [("net", .ref 5), ("net_ctrl", .ref 6),
      ("base_load_from", .ref 7)]),
    (3, .hdict [("tensor_model_parallel_size", .prim (.pi 8)),
      ("sequence_parallel", .prim (.pb true))]),
    (4, .hdict [("load_path", .prim (.ps "some/pretrain.pt"))]),
    (5, .hlazy "VideoExtendGeneralDIT" [("num_blocks", .prim (.pi 28))]),
    (6, .hdict [("num_blocks", .prim (.pi 28)), ("layer_mask", .ref 8)]),
    (7, .hdict [("load_path", .prim (.ps "checkpoints/base.pt"))]),
    (8, .hlist ((List.range 28).map fun i => .prim (.pb (decide (3 ≤ i)))))],
   9⟩

/-- The output of `make_small_configH` on the demo heap (the fallback is
never taken). -/
def demoRes : Nat × Heap :=
  (make_small_configH 200 demoHeap 0 true).getD (0, demoHeap)

/-- Every address and stored reference of `h` lies below `h.next`
(Prop form of `heapClosedBelow`). -/
def HeapClosed (h : Heap) : Prop :=
  ∀ a o, h.find a = some o → a < h.next ∧ ∀ r ∈ o.refs, r < h.next

/-- Objects found at addresses in the fresh region `[n0, ∞)` live below
`next` and only reference the fresh region. -/
def RegionOK (n0 : Nat) (h : Heap) : Prop :=
  ∀ a o, n0 ≤ a → h.find a = some o →
    a < h.next ∧ ∀ r ∈ o.refs, n0 ≤ r ∧ r < h.next

/-- Relation stating `h'` extends `h` without touching addresses below `n0`: old lookups are
unchanged and the fresh region stays closed. -/
structure HExt (n0 : Nat) (h h' : Heap) : Prop where
  base_le : n0 ≤ h.next
  next_le : h.next ≤ h'.next
  old : ∀ a, a < n0 → h'.find a = h.find a
  fresh : RegionOK n0 h'

/-- The induction statement for `deepcopyV` at a given fuel: copying
extends the heap without touching the region below `n0` and the copy's
references are fresh. -/
def DeepcopyVP (fuel : Nat) : Prop :=
  ∀ h v v' h' n0, deepcopyV fuel h v = some (v', h') →
    n0 ≤ h.next → RegionOK n0 h →
    HExt n0 h h' ∧ ∀ r ∈ HVal.refs v', n0 ≤ r ∧ r < h'.next

/-- The induction statement for `deepcopyFields` at a given fuel. -/
def DeepcopyFP (fuel : Nat) : Prop :=
  ∀ h l l' h' n0, deepcopyFields fuel h l = some (l', h') →
    n0 ≤ h.next → RegionOK n0 h →
    HExt n0 h h' ∧ ∀ r ∈ refsOfFields l', n0 ≤ r ∧ r < h'.next

/-- The induction statement for `deepcopyItems` at a given fuel. -/
def DeepcopyIP (fuel : Nat) : Prop :=
  ∀ h l l' h' n0, deepcopyItems fuel h l = some (l', h') →
    n0 ≤ h.next → RegionOK n0 h →
    HExt n0 h h' ∧ ∀ r ∈ l'.flatMap HVal.refs, n0 ≤ r ∧ r < h'.next

/-- The store calls of the generation loop whose names belong to one
(hint key, frame count) combination. -/
def comboStores (key : String) (nfr : Int) : List StoreCall :=
  registrations.filter fun c =>
    (c.name == ctrl_job_name key num_control_blocks "" true nfr) ||
    (c.name == ctrl_job_name key num_control_blocks "" true nfr ++ "_SMALL") ||
    (c.name == ctrl_job_name key num_control_blocks (tp_ckpt_path key) true nfr)

/-- The three trees the loop builds for one (hint key, frame count)
combination: from-scratch, its `net_ctrl=True` debug variant, and the
post-training tree. -/
def loopNodes (key : String) (nfr : Int) : List Value :=
  let t := make_ctrlnet_config key num_control_blocks "" true nfr
  [t, (make_small_config t true).getD t,
   make_ctrlnet_config key num_control_blocks (tp_ckpt_path key) true nfr]

/-! ## Basic heap lemmas -/

/-- A successful association-list lookup is a membership. -/
theorem lookup_mem_of_eq_some {α β : Type} [BEq α] [LawfulBEq α] {k : α}
    {v : β} : ∀ {l : List (α × β)}, List.lookup k l = some v → (k, v) ∈ l := by
  intro l
  induction l with
  | nil => intro hl; simp [List.lookup] at hl
  | cons p rest ih =>
    intro hl
    obtain ⟨a, b⟩ := p
    rw [List.lookup] at hl
    cases hbeq : (k == a) with
    | true =>
      rw [hbeq] at hl
      simp only [Option.some.injEq] at hl
      subst hl
      rw [eq_of_beq hbeq]
      exact List.mem_cons_self _ _
    | false =>
      rw [hbeq] at hl
      exact List.mem_cons_of_mem _ (ih hl)

/-- The Bool heap-closedness check implies the Prop form. -/
theorem heapClosed_of_bool {h : Heap} (hb : heapClosedBelow h = true) :
    HeapClosed h := by
  intro a o hfind
  have hmem : (a, o) ∈ h.mem := lookup_mem_of_eq_some hfind
  unfold heapClosedBelow at hb
  rw [List.all_eq_true] at hb
  have hp := hb _ hmem
  simp only [Bool.and_eq_true, decide_eq_true_eq, List.all_eq_true] at hp
  exact ⟨hp.1, fun r hr => hp.2 r hr⟩

theorem Heap.find_write (h : Heap) (x : Nat) (o : HObj) (a : Nat) :
    (h.write x o).find a = if a = x then some o else h.find a := by
  show List.lookup a ((x, o) :: h.mem) = _
  rw [List.lookup]
  by_cases hax : a = x
  · simp [hax]
  · have : (a == x) = false := by simp [hax]
    rw [this, if_neg hax]
    rfl

theorem Heap.find_alloc (h : Heap) (o : HObj) (a : Nat) :
    (h.alloc o).1.find a = if a = h.next then some o else h.find a := by
  show List.lookup a ((h.next, o) :: h.mem) = _
  rw [List.lookup]
  by_cases hax : a = h.next
  · simp [hax]
  · have : (a == h.next) = false := by simp [hax]
    rw [this, if_neg hax]
    rfl

theorem Heap.write_next (h : Heap) (x : Nat) (o : HObj) :
    (h.write x o).next = h.next := rfl

theorem Heap.alloc_next (h : Heap) (o : HObj) :
    (h.alloc o).1.next = h.next + 1 := rfl

theorem Heap.alloc_addr (h : Heap) (o : HObj) : (h.alloc o).2 = h.next := rfl

theorem refsOfFields_nil : refsOfFields [] = [] := rfl

theorem refsOfFields_cons (p : String × HVal) (rest : List (String × HVal)) :
    refsOfFields (p :: rest) = p.2.refs ++ refsOfFields rest := by
  simp [refsOfFields]

/-! ## Heap-extension lemmas -/

theorem hext_refl {n0 : Nat} {h : Heap} (hle : n0 ≤ h.next)
    (hro : RegionOK n0 h) : HExt n0 h h :=
  ⟨hle, le_refl _, fun _ _ => rfl, hro⟩

theorem hext_comp {n0 : Nat} {h h' h'' : Heap} (e1 : HExt n0 h h')
    (e2 : HExt n0 h' h'') : HExt n0 h h'' :=
  ⟨e1.base_le, le_trans e1.next_le e2.next_le,
   fun a ha => (e2.old a ha).trans (e1.old a ha), e2.fresh⟩

theorem hext_alloc {n0 : Nat} {h : Heap} {o : HObj} (hle : n0 ≤ h.next)
    (hro : RegionOK n0 h) (hrefs : ∀ r ∈ o.refs, n0 ≤ r ∧ r < h.next) :
    HExt n0 h (h.alloc o).1 := by
  refine ⟨hle, by rw [Heap.alloc_next]; omega, ?_, ?_⟩
  · intro a ha
    rw [Heap.find_alloc, if_neg (by omega)]
  · intro a ob hna hfind
    rw [Heap.find_alloc] at hfind
    rw [Heap.alloc_next]
    by_cases hax : a = h.next
    · rw [if_pos hax] at hfind
      cases hfind
      constructor
      · omega
      · intro r hr
        have := hrefs r hr
        omega
    · rw [if_neg hax] at hfind
      have := hro a ob hna hfind
      constructor
      · omega
      · intro r hr
        have := this.2 r hr
        omega

theorem hext_write {n0 : Nat} {h : Heap} {x : Nat} {o : HObj}
    (hle : n0 ≤ h.next) (hro : RegionOK n0 h) (hx : n0 ≤ x)
    (hxlt : x < h.next) (hrefs : ∀ r ∈ o.refs, n0 ≤ r ∧ r < h.next) :
    HExt n0 h (h.write x o) := by
  refine ⟨hle, by rw [Heap.write_next], ?_, ?_⟩
  · intro a ha
    rw [Heap.find_write, if_neg (by omega)]
  · intro a ob hna hfind
    rw [Heap.find_write] at hfind
    rw [Heap.write_next]
    by_cases hax : a = x
    · rw [if_pos hax] at hfind
      cases hfind
      exact ⟨by omega, hrefs⟩
    · rw [if_neg hax] at hfind
      exact hro a ob hna hfind

/-! ## Reference bookkeeping for in-place writes -/

/-- A key update only has references from the old fields or the new value. -/
theorem refs_setKeyH : ∀ (fs : List (String × HVal)) (k : String) (v : HVal)
    (r : Nat), r ∈ refsOfFields (setKeyH fs k v) →
    r ∈ refsOfFields fs ∨ r ∈ v.refs := by
  intro fs
  induction fs with
  | nil =>
    intro k v r hr
    rw [setKeyH, refsOfFields_cons, refsOfFields_nil] at hr
    exact Or.inr (by simpa using hr)
  | cons p rest ih =>
    intro k v r hr
    obtain ⟨k', v'⟩ := p
    rw [setKeyH] at hr
    by_cases hk : k' = k
    · rw [if_pos hk, refsOfFields_cons] at hr
      rcases List.mem_append.mp hr with h1 | h2
      · exact Or.inr h1
      · exact Or.inl (by rw [refsOfFields_cons]; exact List.mem_append_right _ h2)
    · rw [if_neg hk, refsOfFields_cons] at hr
      rcases List.mem_append.mp hr with h1 | h2
      · exact Or.inl (by rw [refsOfFields_cons]; exact List.mem_append_left _ h1)
      · rcases ih k v r h2 with h3 | h4
        · exact Or.inl (by rw [refsOfFields_cons]; exact List.mem_append_right _ h3)
        · exact Or.inr h4

/-- A dict-like object update only has references from the old object or
the new value. -/
theorem refs_setObjKey {o o' : HObj} {k : String} {v : HVal}
    (hs : setObjKey o k v = some o') :
    ∀ r ∈ o'.refs, r ∈ o.refs ∨ r ∈ v.refs := by
  cases o with
  | hdict fs =>
    rw [setObjKey] at hs
    cases hs
    intro r hr
    exact refs_setKeyH fs k v r hr
  | hlazy t fs =>
    rw [setObjKey] at hs
    cases hs
    intro r hr
    exact refs_setKeyH fs k v r hr
  | hlist items => simp [setObjKey] at hs

/-- A reference found under a key is among the fields' references. -/
theorem mem_refs_of_lookup : ∀ {fs : List (String × HVal)} {k : String}
    {b : Nat}, List.lookup k fs = some (.ref b) → b ∈ refsOfFields fs := by
  intro fs
  induction fs with
  | nil => intro k b hl; simp [List.lookup] at hl
  | cons p rest ih =>
    intro k b hl
    obtain ⟨k', v'⟩ := p
    rw [List.lookup] at hl
    cases hbeq : (k == k') with
    | true =>
      rw [hbeq] at hl
      simp only [Option.some.injEq] at hl
      rw [refsOfFields_cons, hl]
      exact List.mem_append_left _ (by simp [HVal.refs])
    | false =>
      rw [hbeq] at hl
      rw [refsOfFields_cons]
      exact List.mem_append_right _ (ih hl)

/-- The fields of a dict-like object carry exactly its references. -/
theorem objFields_refs {o : HObj} {fs : List (String × HVal)}
    (ho : objFields o = some fs) : o.refs = refsOfFields fs := by
  cases o with
  | hdict fs' => rw [objFields] at ho; cases ho; rfl
  | hlazy t fs' => rw [objFields] at ho; cases ho; rfl
  | hlist items => simp [objFields] at ho

/-- An in-place nested write starting at a fresh address extends the heap
without touching the region below `n0`. -/
theorem setPathH_hext : ∀ (path : List String) (h : Heap) (a : Nat)
    (v : HVal) (h' : Heap) (n0 : Nat), setPathH h a path v = some h' →
    n0 ≤ h.next → RegionOK n0 h → n0 ≤ a →
    (∀ r ∈ v.refs, n0 ≤ r ∧ r < h.next) → HExt n0 h h' := by
  intro path
  induction path with
  | nil => intro h a v h' n0 hrun; rw [setPathH] at hrun; cases hrun
  | cons k rest ih =>
    intro h a v h' n0 hrun hle hro ha hv
    cases rest with
    | nil =>
      rw [setPathH] at hrun
      split at hrun
      · cases hrun
      · next o hfind =>
        split at hrun
        · cases hrun
        · next o' hset =>
          simp only [Option.some.injEq] at hrun
          subst hrun
          have hao := hro a o ha hfind
          refine hext_write hle hro ha hao.1 ?_
          intro r hr
          rcases refs_setObjKey hset r hr with h1 | h2
          · exact hao.2 r h1
          · exact hv r h2
    | cons k2 rest' =>
      rw [setPathH] at hrun
      split at hrun
      · cases hrun
      · next o hfind =>
        split at hrun
        · cases hrun
        · next fs hofs =>
          split at hrun
          · next b hlk =>
            have hb : n0 ≤ b := by
              have hmem : b ∈ o.refs := by
                rw [objFields_refs hofs]
                exact mem_refs_of_lookup hlk
              exact ((hro a o ha hfind).2 b hmem).1
            exact ih h b v h' n0 hrun hle hro hb hv
          · cases hrun

/-! ## Deep-copy freshness -/

/-- Deep copy extends the heap without touching addresses below `n0`, and
all of the copy's references are fresh (joint induction on fuel). -/
theorem deepcopy_hext_all : ∀ fuel,
    DeepcopyVP fuel ∧ DeepcopyFP fuel ∧ DeepcopyIP fuel := by
  intro fuel
  induction fuel with
  | zero =>
    refine ⟨?_, ?_, ?_⟩
    · intro h v v' h' n0 hrun hle hro
      cases v with
      | prim p =>
        rw [deepcopyV] at hrun
        simp only [Option.some.injEq, Prod.mk.injEq] at hrun
        obtain ⟨hv, hh⟩ := hrun
        subst hv; subst hh
        exact ⟨hext_refl hle hro, by intro r hr; simp [HVal.refs] at hr⟩
      | ref a => rw [deepcopyV] at hrun; cases hrun
    · intro h l l' h' n0 hrun hle hro
      cases l with
      | nil =>
        rw [deepcopyFields] at hrun
        simp only [Option.some.injEq, Prod.mk.injEq] at hrun
        obtain ⟨hl, hh⟩ := hrun
        subst hl; subst hh
        exact ⟨hext_refl hle hro, by intro r hr; simp [refsOfFields_nil] at hr⟩
      | cons p rest => rw [deepcopyFields] at hrun; cases hrun
    · intro h l l' h' n0 hrun hle hro
      cases l with
      | nil =>
        rw [deepcopyItems] at hrun
        simp only [Option.some.injEq, Prod.mk.injEq] at hrun
        obtain ⟨hl, hh⟩ := hrun
        subst hl; subst hh
        exact ⟨hext_refl hle hro, by intro r hr; simp at hr⟩
      | cons v rest => rw [deepcopyItems] at hrun; cases hrun
  | succ f ih =>
    obtain ⟨ihV, ihF, ihI⟩ := ih
    refine ⟨?_, ?_, ?_⟩
    · intro h v v' h' n0 hrun hle hro
      cases v with
      | prim p =>
        rw [deepcopyV] at hrun
        simp only [Option.some.injEq, Prod.mk.injEq] at hrun
        obtain ⟨hv, hh⟩ := hrun
        subst hv; subst hh
        exact ⟨hext_refl hle hro, by intro r hr; simp [HVal.refs] at hr⟩
      | ref a =>
        rw [deepcopyV] at hrun
        split at hrun
        · cases hrun
        · next fs hfind =>
          split at hrun
          · cases hrun
          · next fs' h1 hF =>
            simp only [Option.some.injEq, Prod.mk.injEq] at hrun
            obtain ⟨hv, hh⟩ := hrun
            subst hv; subst hh
            obtain ⟨e1, hfs⟩ := ihF h fs fs' h1 n0 hF hle hro
            have e2 := hext_alloc (o := .hdict fs')
              (le_trans hle e1.next_le) e1.fresh hfs
            refine ⟨hext_comp e1 e2, ?_⟩
            intro r hr
            simp only [HVal.refs, List.mem_singleton] at hr
            subst hr
            rw [Heap.alloc_addr, Heap.alloc_next]
            exact ⟨le_trans hle e1.next_le, by omega⟩
        · next t fs hfind =>
          split at hrun
          · cases hrun
          · next fs' h1 hF =>
            simp only [Option.some.injEq, Prod.mk.injEq] at hrun
            obtain ⟨hv, hh⟩ := hrun
            subst hv; subst hh
            obtain ⟨e1, hfs⟩ := ihF h fs fs' h1 n0 hF hle hro
            have e2 := hext_alloc (o := .hlazy t fs')
              (le_trans hle e1.next_le) e1.fresh hfs
            refine ⟨hext_comp e1 e2, ?_⟩
            intro r hr
            simp only [HVal.refs, List.mem_singleton] at hr
            subst hr
            rw [Heap.alloc_addr, Heap.alloc_next]
            exact ⟨le_trans hle e1.next_le, by omega⟩
        · next items hfind =>
          split at hrun
          · cases hrun
          · next items' h1 hI =>
            simp only [Option.some.injEq, Prod.mk.injEq] at hrun
            obtain ⟨hv, hh⟩ := hrun
            subst hv; subst hh
            obtain ⟨e1, hits⟩ := ihI h items items' h1 n0 hI hle hro
            have e2 := hext_alloc (o := .hlist items')
              (le_trans hle e1.next_le) e1.fresh hits
            refine ⟨hext_comp e1 e2, ?_⟩
            intro r hr
            simp only [HVal.refs, List.mem_singleton] at hr
            subst hr
            rw [Heap.alloc_addr, Heap.alloc_next]
            exact ⟨le_trans hle e1.next_le, by omega⟩
    · intro h l l' h' n0 hrun hle hro
      cases l with
      | nil =>
        rw [deepcopyFields] at hrun
        simp only [Option.some.injEq, Prod.mk.injEq] at hrun
        obtain ⟨hl, hh⟩ := hrun
        subst hl; subst hh
        exact ⟨hext_refl hle hro, by intro r hr; simp [refsOfFields_nil] at hr⟩
      | cons p rest =>
        obtain ⟨k, v⟩ := p
        rw [deepcopyFields] at hrun
        split at hrun
        · cases hrun
        · next v1 h1 hV =>
          split at hrun
          · cases hrun
          · next rest' h2 hR =>
            simp only [Option.some.injEq, Prod.mk.injEq] at hrun
            obtain ⟨hl, hh⟩ := hrun
            subst hl; subst hh
            obtain ⟨e1, hv1⟩ := ihV h v v1 h1 n0 hV hle hro
            obtain ⟨e2, hrest⟩ := ihF h1 rest rest' h2 n0 hR
              (le_trans hle e1.next_le) e1.fresh
            refine ⟨hext_comp e1 e2, ?_⟩
            intro r hr
            rw [refsOfFields_cons] at hr
            rcases List.mem_append.mp hr with h1m | h2m
            · have := hv1 r h1m
              have := e2.next_le
              constructor <;> omega
            · exact hrest r h2m
    · intro h l l' h' n0 hrun hle hro
      cases l with
      | nil =>
        rw [deepcopyItems] at hrun
        simp only [Option.some.injEq, Prod.mk.injEq] at hrun
        obtain ⟨hl, hh⟩ := hrun
        subst hl; subst hh
        exact ⟨hext_refl hle hro, by intro r hr; simp at hr⟩
      | cons v rest =>
        rw [deepcopyItems] at hrun
        split at hrun
        · cases hrun
        · next v1 h1 hV =>
          split at hrun
          · cases hrun
          · next rest' h2 hR =>
            simp only [Option.some.injEq, Prod.mk.injEq] at hrun
            obtain ⟨hl, hh⟩ := hrun
            subst hl; subst hh
            obtain ⟨e1, hv1⟩ := ihV h v v1 h1 n0 hV hle hro
            obtain ⟨e2, hrest⟩ := ihI h1 rest rest' h2 n0 hR
              (le_trans hle e1.next_le) e1.fresh
            refine ⟨hext_comp e1 e2, ?_⟩
            intro r hr
            rw [List.flatMap_cons] at hr
            rcases List.mem_append.mp hr with h1m | h2m
            · have := hv1 r h1m
              have := e2.next_le
              constructor <;> omega
            · exact hrest r h2m

/-- Value-level corollary of the joint deep-copy induction. -/
theorem deepcopyV_hext : ∀ fuel, DeepcopyVP fuel :=
  fun fuel => (deepcopy_hext_all fuel).1

/-! ## Structural reads and reachability -/

/-- Two heaps that agree below `n0` (with the region below `n0` closed)
give the same structural reads of values whose references lie below `n0`
(joint induction on fuel over values, fields and items). -/
theorem readV_agree_all (n0 : Nat) (h1 h2 : Heap)
    (hagree : ∀ y, y < n0 → h2.find y = h1.find y)
    (hclosed : ∀ y o, y < n0 → h1.find y = some o → ∀ r ∈ o.refs, r < n0) :
    ∀ fuel,
    (∀ v, (∀ r ∈ HVal.refs v, r < n0) →
      readV fuel h2 v = readV fuel h1 v) ∧
    (∀ l, (∀ r ∈ refsOfFields l, r < n0) →
      readFields fuel h2 l = readFields fuel h1 l) ∧
    (∀ l, (∀ r ∈ l.flatMap HVal.refs, r < n0) →
      readItems fuel h2 l = readItems fuel h1 l) := by
  intro fuel
  induction fuel with
  | zero =>
    refine ⟨?_, ?_, ?_⟩
    · intro v hv
      cases v with
      | prim p => rw [readV, readV]
      | ref a => rw [readV, readV]
    · intro l hl
      cases l with
      | nil => rw [readFields, readFields]
      | cons p rest => rw [readFields, readFields]
    · intro l hl
      cases l with
      | nil => rw [readItems, readItems]
      | cons v rest => rw [readItems, readItems]
  | succ f ih =>
    obtain ⟨ihV, ihF, ihI⟩ := ih
    refine ⟨?_, ?_, ?_⟩
    · intro v hv
      cases v with
      | prim p => rw [readV, readV]
      | ref a =>
        have ha : a < n0 := hv a (by simp [HVal.refs])
        rw [readV, readV, hagree a ha]
        cases hfind : h1.find a with
        | none => rfl
        | some o =>
          have horefs := hclosed a o ha hfind
          cases o with
          | hdict fs =>
            show (match readFields f h2 fs with
                | none => none
                | some fs' => some (RTree.rdict fs')) =
              (match readFields f h1 fs with
                | none => none
                | some fs' => some (RTree.rdict fs'))
            rw [ihF fs horefs]
          | hlazy t fs =>
            show (match readFields f h2 fs with
                | none => none
                | some fs' => some (RTree.rlazy t fs')) =
              (match readFields f h1 fs with
                | none => none
                | some fs' => some (RTree.rlazy t fs'))
            rw [ihF fs horefs]
          | hlist items =>
            show (match readItems f h2 items with
                | none => none
                | some items' => some (RTree.rlist items')) =
              (match readItems f h1 items with
                | none => none
                | some items' => some (RTree.rlist items'))
            rw [ihI items horefs]
    · intro l hl
      cases l with
      | nil => rw [readFields, readFields]
      | cons p rest =>
        obtain ⟨k, v⟩ := p
        have hv1 : ∀ r ∈ v.refs, r < n0 := by
          intro r hr
          refine hl r ?_
          rw [refsOfFields_cons]
          exact List.mem_append_left _ hr
        have hr1 : ∀ r ∈ refsOfFields rest, r < n0 := by
          intro r hr
          refine hl r ?_
          rw [refsOfFields_cons]
          exact List.mem_append_right _ hr
        rw [readFields, readFields, ihV v hv1, ihF rest hr1]
    · intro l hl
      cases l with
      | nil => rw [readItems, readItems]
      | cons v rest =>
        have hv1 : ∀ r ∈ v.refs, r < n0 := by
          intro r hr
          refine hl r ?_
          rw [List.flatMap_cons]
          exact List.mem_append_left _ hr
        have hr1 : ∀ r ∈ rest.flatMap HVal.refs, r < n0 := by
          intro r hr
          refine hl r ?_
          rw [List.flatMap_cons]
          exact List.mem_append_right _ hr
        rw [readItems, readItems, ihV v hv1, ihI rest hr1]

/-- Value-level corollary of the joint read-agreement induction. -/
theorem readV_agree (n0 : Nat) (h1 h2 : Heap)
    (hagree : ∀ y, y < n0 → h2.find y = h1.find y)
    (hclosed : ∀ y o, y < n0 → h1.find y = some o → ∀ r ∈ o.refs, r < n0) :
    ∀ fuel v, (∀ r ∈ HVal.refs v, r < n0) →
    readV fuel h2 v = readV fuel h1 v :=
  fun fuel => (readV_agree_all n0 h1 h2 hagree hclosed fuel).1

/-- From a fresh address, only fresh addresses are reachable. -/
theorem reach_fresh {n0 : Nat} {h : Heap} (hro : RegionOK n0 h) :
    ∀ {a x : Nat}, Reaches h a x → n0 ≤ a → n0 ≤ x := by
  intro a x hr
  induction hr with
  | refl a => exact id
  | step hfind hmem _ ih =>
    intro ha
    exact ih ((hro _ _ ha hfind).2 _ hmem).1

/-- In a heap whose old region is untouched, reachability from an old
address stays in the old region. -/
theorem reach_old_lt {n0 : Nat} {h hbase : Heap}
    (hagree : ∀ y, y < n0 → h.find y = hbase.find y)
    (hclosed : ∀ y o, y < n0 → hbase.find y = some o → ∀ r ∈ o.refs, r < n0) :
    ∀ {a x : Nat}, Reaches h a x → a < n0 → x < n0 := by
  intro a x hr
  induction hr with
  | refl a => exact id
  | step hfind hmem _ ih =>
    intro ha
    rw [hagree _ ha] at hfind
    exact ih (hclosed _ _ ha hfind _ hmem)

/-! ## The non-aliasing theorem for the heap-level make_small_config -/

theorem refs_prim_bound (p : Prim) (n0 m : Nat) :
    ∀ r ∈ HVal.refs (.prim p), n0 ≤ r ∧ r < m := by
  intro r hr
  simp [HVal.refs] at hr

/-- Claim C4: `make_small_config` does not modify its input tree: the
structural read of the original root is unchanged by the call, the derived
tree shares no heap address with the original, and overwriting any object
reachable from the derived root leaves the original's structural read
untouched. -/
theorem make_small_config_no_mutation (fuel : Nat) (h : Heap) (a : Nat)
    (nc : Bool) (a' : Nat) (hfin : Heap)
    (hrun : make_small_configH fuel h a nc = some (a', hfin))
    (hcb : heapClosedBelow h = true) (ha : a < h.next) :
    (∀ f, readV f hfin (.ref a) = readV f h (.ref a)) ∧
    (∀ x, Reaches hfin a' x → ¬ Reaches hfin a x) ∧
    (∀ x, Reaches hfin a' x → ∀ o f,
      readV f (hfin.write x o) (.ref a) = readV f hfin (.ref a)) := by
  have hclosed := heapClosed_of_bool hcb
  have hro : RegionOK h.next h := by
    intro y o hy hfind
    exact absurd (hclosed y o hfind).1 (by omega)
  have main : HExt h.next h hfin ∧ h.next ≤ a' := by
    rw [make_small_configH] at hrun
    split at hrun
    case h_2 => cases hrun
    case h_1 a'' h1 hdc =>
      obtain ⟨e1, hrefs⟩ := deepcopyV_hext fuel h (.ref a) (.ref a'') h1
        h.next hdc (le_refl _) hro
      have ha'' : h.next ≤ a'' ∧ a'' < h1.next :=
        hrefs a'' (by simp [HVal.refs])
      have step : ∀ (hh hh2 : Heap) (path : List String) (v : HVal),
          HExt h.next h hh → setPathH hh a'' path v = some hh2 →
          (∀ r ∈ HVal.refs v, h.next ≤ r ∧ r < hh.next) →
          HExt h.next h hh2 := by
        intro hh hh2 path v E hs hv
        exact hext_comp E (setPathH_hext path hh a'' v hh2 h.next hs
          (le_trans E.base_le E.next_le) E.fresh ha''.1 hv)
      rw [Option.bind_eq_some] at hrun
      obtain ⟨h2, hs2, hrun⟩ := hrun
      have E2 := step h1 h2 _ _ e1 hs2 (refs_prim_bound _ _ _)
      rw [Option.bind_eq_some] at hrun
      obtain ⟨n, hname, hrun⟩ := hrun
      rw [Option.bind_eq_some] at hrun
      obtain ⟨h3, hs3, hrun⟩ := hrun
      have E3 := step h2 h3 _ _ E2 hs3 (refs_prim_bound _ _ _)
      rw [Option.bind_eq_some] at hrun
      obtain ⟨h4, hs4, hrun⟩ := hrun
      have E4 := step h3 h4 _ _ E3 hs4 (refs_prim_bound _ _ _)
      rw [Option.bind_eq_some] at hrun
      obtain ⟨h7, hif, hrun⟩ := hrun
      have E7 : HExt h.next h h7 := by
        split at hif
        · rw [Option.bind_eq_some] at hif
          obtain ⟨h5, hs5, hif⟩ := hif
          have E5 := step h4 h5 _ _ E4 hs5 (refs_prim_bound _ _ _)
          have hnorefs : HObj.refs (.hlist ((List.range 2).map fun i =>
              .prim (.pb (decide (2 / 2 ≤ i))))) = [] := rfl
          have E6 : HExt h.next h ((h5.alloc (.hlist ((List.range 2).map
              fun i => .prim (.pb (decide (2 / 2 ≤ i)))))).1) := by
            refine hext_comp E5 (hext_alloc (le_trans E5.base_le E5.next_le)
              E5.fresh ?_)
            rw [hnorefs]
            intro r hr
            cases hr
          refine hext_comp E6 (setPathH_hext _ _ a'' _ h7 h.next hif
            (le_trans E6.base_le E6.next_le) E6.fresh ha''.1 ?_)
          intro r hr
          simp only [HVal.refs, List.mem_singleton] at hr
          subst hr
          rw [Heap.alloc_addr, Heap.alloc_next]
          have := E5.base_le
          have := E5.next_le
          constructor <;> omega
        · simp only [Option.some.injEq] at hif
          subst hif
          exact E4
      rw [Option.bind_eq_some] at hrun
      obtain ⟨h8, hs8, hrun⟩ := hrun
      have E8 := step h7 h8 _ _ E7 hs8 (refs_prim_bound _ _ _)
      rw [Option.bind_eq_some] at hrun
      obtain ⟨h9, hs9, hrun⟩ := hrun
      have E9 := step h8 h9 _ _ E8 hs9 (refs_prim_bound _ _ _)
      rw [Option.bind_eq_some] at hrun
      obtain ⟨h10, hs10, hrun⟩ := hrun
      have E10 := step h9 h10 _ _ E9 hs10 (refs_prim_bound _ _ _)
      rw [Option.map_eq_some'] at hrun
      obtain ⟨h11, hs11, heq⟩ := hrun
      have E11 := step h10 h11 _ _ E10 hs11 (refs_prim_bound _ _ _)
      simp only [Prod.mk.injEq] at heq
      obtain ⟨heqa, heqh⟩ := heq
      subst heqa
      subst heqh
      exact ⟨E11, ha''.1⟩
  obtain ⟨Efin, hafr⟩ := main
  have hold_closed : ∀ y o2, y < h.next → h.find y = some o2 →
      ∀ r ∈ o2.refs, r < h.next := by
    intro y o2 _ hf
    exact (hclosed y o2 hf).2
  refine ⟨?_, ?_, ?_⟩
  · intro f
    refine readV_agree h.next h hfin Efin.old hold_closed f (.ref a) ?_
    intro r hr
    simp only [HVal.refs, List.mem_singleton] at hr
    subst hr
    exact ha
  · intro x hx hax
    have hxge := reach_fresh Efin.fresh hx hafr
    have hxlt := reach_old_lt Efin.old hold_closed hax ha
    omega
  · intro x hx o f
    have hxge := reach_fresh Efin.fresh hx hafr
    refine readV_agree h.next hfin (hfin.write x o) ?_ ?_ f (.ref a) ?_
    · intro y hy
      rw [Heap.find_write, if_neg (by omega)]
    · intro y o2 hy hf
      rw [Efin.old y hy] at hf
      exact hold_closed y o2 hy hf
    · intro r hr
      simp only [HVal.refs, List.mem_singleton] at hr
      subst hr
      exact ha

/-- Witness for C4 on the concrete demo heap. -/
theorem make_small_config_no_mutation_witness :
    heapClosedBelow demoHeap = true ∧ 0 < demoHeap.next ∧
    make_small_configH 200 demoHeap 0 true = some (demoRes.1, demoRes.2) ∧
    (∀ f, readV f demoRes.2 (.ref 0) = readV f demoHeap (.ref 0)) ∧
    (∀ x, Reaches demoRes.2 demoRes.1 x → ¬ Reaches demoRes.2 0 x) ∧
    (∀ x, Reaches demoRes.2 demoRes.1 x → ∀ o f,
      readV f (demoRes.2.write x o) (.ref 0) = readV f demoRes.2 (.ref 0)) := by
  have hrun : make_small_configH 200 demoHeap 0 true =
      some (demoRes.1, demoRes.2) := by rfl
  have hmain := make_small_config_no_mutation 200 demoHeap 0 true demoRes.1
    demoRes.2 hrun (by decide) (by decide)
  exact ⟨by decide, by decide, hrun, hmain.1, hmain.2.1, hmain.2.2⟩

/-! ## Claim theorems on the value-level model -/

/-- Claim C1: for `hint_key="control_input_hdmap"`, `num_frames=121`,
`pretrain_model_path=""`, `t2v=True` and `num_control_blocks=3`, the tree
has the exact job name stated, project `cosmos_transfer1_pretrain`, and
latent shape `[16, 16, 88, 160]` (so `latent_shape[1] = 16`). -/
theorem ctrlnet_config_hdmap_121_scenario :
    jobNameOf (make_ctrlnet_config "control_input_hdmap" 3 "" true 121) =
      "CTRL_7Bv1pt3_t2v_sv2mv_121frames_control_input_hdmap_block3_pretrain" ∧
    getPath (make_ctrlnet_config "control_input_hdmap" 3 "" true 121)
      ["job", "project"] = some (.vstr "cosmos_transfer1_pretrain") ∧
    getPath (make_ctrlnet_config "control_input_hdmap" 3 "" true 121)
      ["model", "latent_shape"] =
      some (.vlist [.vint 16, .vint 16, .vint 88, .vint 160]) := by
  refine ⟨rfl, rfl, rfl⟩

/-- Claim C2: for every `num_control_blocks` (and all other parameters),
the control-layer mask has length `num_blocks` (= 28) and entry `i` is
`True` exactly when `i ≥ num_control_blocks`. -/
theorem ctrlnet_layer_mask_consistent (hk : String) (ncb : Int) (pp : String)
    (tv : Bool) (nf : Int) :
    ∃ mask : List Bool,
      getPath (make_ctrlnet_config hk ncb pp tv nf)
        ["model", "net_ctrl", "layer_mask"]
        = some (.vlist (mask.map Value.vbool)) ∧
      mask.length = num_blocks ∧
      ∀ i : Fin num_blocks, (mask.getD i.val false = true ↔ ncb ≤ (i.val : Int)) := by
  refine ⟨(List.range num_blocks).map fun i : Nat => decide (ncb ≤ (i : Int)),
    ?_, ?_, ?_⟩
  · rw [List.map_map]
    rfl
  · rw [List.length_map, List.length_range]
  · intro i
    have hilt : i.val < ((List.range num_blocks).map
        fun i : Nat => decide (ncb ≤ (i : Int))).length := by
      rw [List.length_map, List.length_range]
      exact i.isLt
    rw [List.getD_eq_getElem _ _ hilt]
    rw [List.getElem_map, List.getElem_range]
    exact decide_eq_true_iff

/-- Claim C6: for every `num_frames` (and all other parameters), the
latent temporal extent `latent_shape[1]` equals
`(num_frames - 1) // 8 + 1` (Python floor division); in particular 121
frames give 16 and 57 frames give 8. -/
theorem ctrlnet_latent_shape_formula :
    (∀ (hk : String) (ncb : Int) (pp : String) (tv : Bool) (nf : Int),
      ∃ l : List Value,
        getPath (make_ctrlnet_config hk ncb pp tv nf)
          ["model", "latent_shape"] = some (.vlist l) ∧
        l.getD 1 .vnone = .vint ((nf - 1).fdiv 8 + 1)) ∧
    ((121 - 1 : Int).fdiv 8 + 1 = 16) ∧
    ((57 - 1 : Int).fdiv 8 + 1 = 8) := by
  refine ⟨?_, by decide, by decide⟩
  intro hk ncb pp tv nf
  exact ⟨_, rfl, rfl⟩

/-- Claim C5: whenever `pretrain_model_path` is non-empty, the job name
ends in `_posttrain`, the project is `cosmos_transfer1_posttrain`, and
`checkpoint.load_path` is the given path verbatim. -/
theorem ctrlnet_config_posttrain_spec (hk : String) (ncb : Int) (pp : String)
    (tv : Bool) (nf : Int) (hpp : pp ≠ "") :
    (∃ s, jobNameOf (make_ctrlnet_config hk ncb pp tv nf) =
      s ++ "_posttrain") ∧
    getPath (make_ctrlnet_config hk ncb pp tv nf) ["job", "project"] =
      some (.vstr "cosmos_transfer1_posttrain") ∧
    getPath (make_ctrlnet_config hk ncb pp tv nf) ["checkpoint", "load_path"]
      = some (.vstr pp) := by
  refine ⟨?_, ?_, rfl⟩
  · show ∃ s, ctrl_job_name hk ncb pp tv nf = s ++ "_posttrain"
    rw [ctrl_job_name, if_neg hpp]
    cases tv with
    | true => exact ⟨_, rfl⟩
    | false => exact ⟨_, rfl⟩
  · show some (Value.vstr (ctrl_job_project pp tv)) =
      some (Value.vstr "cosmos_transfer1_posttrain")
    rw [ctrl_job_project, if_neg hpp]
    cases tv with
    | true => rfl
    | false => rfl

/-- Witness for C5 at a concrete non-empty path. -/
theorem ctrlnet_config_posttrain_spec_witness :
    ("checkpoints/tp/model.pt" : String) ≠ "" ∧
    ((∃ s, jobNameOf (make_ctrlnet_config "control_input_hdmap" 3
        "checkpoints/tp/model.pt" true 121) = s ++ "_posttrain") ∧
    getPath (make_ctrlnet_config "control_input_hdmap" 3
      "checkpoints/tp/model.pt" true 121) ["job", "project"] =
      some (.vstr "cosmos_transfer1_posttrain") ∧
    getPath (make_ctrlnet_config "control_input_hdmap" 3
      "checkpoints/tp/model.pt" true 121) ["checkpoint", "load_path"] =
      some (.vstr "checkpoints/tp/model.pt")) :=
  ⟨by decide, ctrlnet_config_posttrain_spec "control_input_hdmap" 3
    "checkpoints/tp/model.pt" true 121 (by decide)⟩

/-- Claim C10: with `net_ctrl=False`, only `model.net.num_blocks` shrinks
to 2; `model.net_ctrl.num_blocks` stays 28 and the 28-entry control mask is
carried over unchanged, so it is inconsistent with the shrunken count. -/
theorem make_small_config_default_keeps_ctrl (hk : String) (ncb : Int)
    (pp : String) (tv : Bool) (nf : Int) :
    ∃ s, make_small_config (make_ctrlnet_config hk ncb pp tv nf) false
        = some s ∧
      getPath s ["model", "net", "num_blocks"] = some (.vint 2) ∧
      getPath s ["model", "net_ctrl", "num_blocks"] =
        some (.vint (num_blocks : Int)) ∧
      getPath s ["model", "net_ctrl", "layer_mask"] =
        getPath (make_ctrlnet_config hk ncb pp tv nf)
          ["model", "net_ctrl", "layer_mask"] ∧
      (∃ l, getPath s ["model", "net_ctrl", "layer_mask"] =
        some (.vlist l) ∧ l.length = num_blocks ∧ l.length ≠ 2) := by
  refine ⟨_, rfl, rfl, rfl, rfl, ?_⟩
  refine ⟨_, rfl, ?_, ?_⟩
  · rw [List.length_map, List.length_range]
  · rw [List.length_map, List.length_range]
    decide

/-- Claim C3: deriving the debug variant with `net_ctrl=True` from any
built tree moves it to group `debug`, appends `_SMALL` to the job name,
shrinks both block counts to 2, recomputes the control mask from the new
count (two entries, `mask[i] = (i ≥ 1)`), disables tensor/sequence
parallelism, and clears both load paths. -/
theorem make_small_config_net_ctrl_spec (hk : String) (ncb : Int)
    (pp : String) (tv : Bool) (nf : Int) :
    ∃ s, make_small_config (make_ctrlnet_config hk ncb pp tv nf) true
        = some s ∧
      getPath s ["job", "group"] = some (.vstr "debug") ∧
      getPath s ["job", "name"] = some (.vstr
        (jobNameOf (make_ctrlnet_config hk ncb pp tv nf) ++ "_SMALL")) ∧
      getPath s ["model", "net", "num_blocks"] = some (.vint 2) ∧
      getPath s ["model", "net_ctrl", "num_blocks"] = some (.vint 2) ∧
      getPath s ["model", "net_ctrl", "layer_mask"] = some (.vlist
        ((List.range 2).map fun i : Nat => .vbool (decide (1 ≤ i)))) ∧
      getPath s ["model_parallel", "tensor_model_parallel_size"]
        = some (.vint 1) ∧
      getPath s ["model_parallel", "sequence_parallel"]
        = some (.vbool false) ∧
      getPath s ["checkpoint", "load_path"] = some (.vstr "") ∧
      getPath s ["model", "base_load_from", "load_path"]
        = some (.vstr "") := by
  exact ⟨_, rfl, rfl, rfl, rfl, rfl, rfl, rfl, rfl, rfl, rfl⟩

/-- Claim C7: for each hint key of the loop, the post-training tree's
`checkpoint.load_path` is the join of the checkpoint root, `checkpoints_tp`,
and the base filename of the table entry for the short hint key. -/
theorem tp_ckpt_path_spec :
    List.lookup (pyReplace "control_input_hdmap" "control_input_" "")
      mv_model_names = some SV2MV_t2v_HDMAP2WORLD_CONTROLNET_7B_CHECKPOINT_PATH_dbg ∧
    List.lookup (pyReplace "control_input_lidar" "control_input_" "")
      mv_model_names = some SV2MV_t2v_LIDAR2WORLD_CONTROLNET_7B_CHECKPOINT_PATH_dbg ∧
    getPath (make_ctrlnet_config "control_input_hdmap" num_control_blocks
        (tp_ckpt_path "control_input_hdmap") true 57)
      ["checkpoint", "load_path"] = some (.vstr (pyJoin ckpt_root
        ["checkpoints_tp",
         basename SV2MV_t2v_HDMAP2WORLD_CONTROLNET_7B_CHECKPOINT_PATH_dbg])) ∧
    getPath (make_ctrlnet_config "control_input_hdmap" num_control_blocks
        (tp_ckpt_path "control_input_hdmap") true 121)
      ["checkpoint", "load_path"] = some (.vstr (pyJoin ckpt_root
        ["checkpoints_tp",
         basename SV2MV_t2v_HDMAP2WORLD_CONTROLNET_7B_CHECKPOINT_PATH_dbg])) ∧
    getPath (make_ctrlnet_config "control_input_lidar" num_control_blocks
        (tp_ckpt_path "control_input_lidar") true 57)
      ["checkpoint", "load_path"] = some (.vstr (pyJoin ckpt_root
        ["checkpoints_tp",
         basename SV2MV_t2v_LIDAR2WORLD_CONTROLNET_7B_CHECKPOINT_PATH_dbg])) ∧
    getPath (make_ctrlnet_config "control_input_lidar" num_control_blocks
        (tp_ckpt_path "control_input_lidar") true 121)
      ["checkpoint", "load_path"] = some (.vstr (pyJoin ckpt_root
        ["checkpoints_tp",
         basename SV2MV_t2v_LIDAR2WORLD_CONTROLNET_7B_CHECKPOINT_PATH_dbg])) := by
  exact ⟨rfl, rfl, rfl, rfl, rfl, rfl⟩

/-- Claim C8: the generation loop performs exactly 12 store calls, three per
(hint key, frame count) combination — the from-scratch tree, its
`net_ctrl=True` debug variant, and the post-training tree — and stores no
debug variant of any post-training tree. -/
theorem registration_loop_stores :
    registrations.length = 12 ∧
    comboStores "control_input_hdmap" 57 ++ comboStores "control_input_hdmap" 121
      ++ comboStores "control_input_lidar" 57
      ++ comboStores "control_input_lidar" 121 = registrations ∧
    (comboStores "control_input_hdmap" 57).map (·.node)
      = loopNodes "control_input_hdmap" 57 ∧
    (comboStores "control_input_hdmap" 121).map (·.node)
      = loopNodes "control_input_hdmap" 121 ∧
    (comboStores "control_input_lidar" 57).map (·.node)
      = loopNodes "control_input_lidar" 57 ∧
    (comboStores "control_input_lidar" 121).map (·.node)
      = loopNodes "control_input_lidar" 121 ∧
    (make_small_config (make_ctrlnet_config "control_input_hdmap"
      num_control_blocks "" true 57) true).isSome = true ∧
    (make_small_config (make_ctrlnet_config "control_input_hdmap"
      num_control_blocks "" true 121) true).isSome = true ∧
    (make_small_config (make_ctrlnet_config "control_input_lidar"
      num_control_blocks "" true 57) true).isSome = true ∧
    (make_small_config (make_ctrlnet_config "control_input_lidar"
      num_control_blocks "" true 121) true).isSome = true ∧
    ((registrations.map (·.name)).all fun n =>
      !(pyEndsWith n "_posttrain_SMALL")) = true := by
  exact ⟨rfl, rfl, rfl, rfl, rfl, rfl, rfl, rfl, rfl, rfl, rfl⟩

/-- Claim C9: the twelve names the loop stores under embed the hint key and
frame count (listed explicitly below, with suffixes `_pretrain`,
`_pretrain_SMALL` and `_posttrain`) and are pairwise distinct, so no store
call shadows an earlier one. -/
theorem registration_names_distinct :
    registrations.map (·.name) =
      [ctrl_job_name "control_input_hdmap" 3 "" true 57,
       ctrl_job_name "control_input_hdmap" 3 "" true 57 ++ "_SMALL",
       ctrl_job_name "control_input_hdmap" 3
         (tp_ckpt_path "control_input_hdmap") true 57,
       ctrl_job_name "control_input_hdmap" 3 "" true 121,
       ctrl_job_name "control_input_hdmap" 3 "" true 121 ++ "_SMALL",
       ctrl_job_name "control_input_hdmap" 3
         (tp_ckpt_path "control_input_hdmap") true 121,
       ctrl_job_name "control_input_lidar" 3 "" true 57,
       ctrl_job_name "control_input_lidar" 3 "" true 57 ++ "_SMALL",
       ctrl_job_name "control_input_lidar" 3
         (tp_ckpt_path "control_input_lidar") true 57,
       ctrl_job_name "control_input_lidar" 3 "" true 121,
       ctrl_job_name "control_input_lidar" 3 "" true 121 ++ "_SMALL",
       ctrl_job_name "control_input_lidar" 3
         (tp_ckpt_path "control_input_lidar") true 121] ∧
    (registrations.map fun c => (c.group, c.name)).Nodup ∧
    ((registrations.map (·.name)).all fun n =>
      pyEndsWith n "_pretrain" || pyEndsWith n "_pretrain_SMALL"
        || pyEndsWith n "_posttrain") = true := by
  refine ⟨rfl, by decide, rfl⟩
